import Mathlib

/-!
Verification of the `map_engine` dungeon map generator:
a shallow embedding of `map_engine/tile_selector.py` and
`map_engine/map_generator.py`, with theorems settling the spec's claims.

Conventions:
* Python `int` is `Int`; sizes/counts that the code only ever uses as
  non-negative extents (`width`, `height`, `tile_size`, room-count bounds)
  are `Nat` and cast to `Int` where the source does signed arithmetic.
* A pygame `Surface` holding one sliced tile is identified by the pixel
  offset `(x*tile_size, y*tile_size)` of the rectangle it was cut from.
* Python exceptions are `Except`: the error value of `generate` carries the
  (mutated-in-place) object state at the moment the exception propagates.
-/

namespace MapEngine

/-! ## tile_selector.py -/

/-- A tile image, identified by the source-rect offset it was sliced from
(`(x * tile_size, y * tile_size)` in `TileSelector.__init__`). -/
abbrev TileImg := Nat × Nat

/-- One entry of the `tileset_images` path list handed to
`TileSelector.__init__`, as the file system resolves it: the path may not
exist, may exist but fail `pygame.image.load`, or decode to an image of the
given pixel dimensions. -/
inductive Source where
  | missing (path : String)
  | undecodable (path : String)
  | image (path : String) (w h : Nat)
deriving DecidableEq, Repr

/-- Whether a source is located but fails to decode. -/
def Source.isUndecodable : Source → Bool
  | .undecodable _ => true
  | _ => false

/-- The tiles sliced from one decoded sheet in `TileSelector.__init__`:
`width = img_width // tile_size`, `height = img_height // tile_size`, then
row-major `for y in range(height): for x in range(width)` appending the tile
cut at `(x * tile_size, y * tile_size)`. -/
def sliceTiles (imgW imgH tileSize : Nat) : List TileImg :=
  (List.range (imgH / tileSize)).flatMap fun y =>
    (List.range (imgW / tileSize)).map fun x => (x * tileSize, y * tileSize)

/-- The loading loop of `TileSelector.__init__`: missing paths are skipped
(warning only), a decodable image appends its sliced tiles and its name, and
a `pygame.error` on load is re-raised as `RuntimeError`, aborting
construction. Returns the `(tileset_images, tileset_names)` pair. -/
def loadSheets (tileSize : Nat) : List Source → Except String (List (List TileImg) × List String)
  | [] => .ok ([], [])
  | .missing _ :: rest => loadSheets tileSize rest
  | .undecodable p :: _ => .error p
  | .image p w h :: rest => do
      let (imgs, names) ← loadSheets tileSize rest
      return (sliceTiles w h tileSize :: imgs, p :: names)

/-- The state of a constructed `TileSelector`. -/
structure TileSelector where
  tile_size : Nat
  tileset_images : List (List TileImg)
  tileset_names : List String
deriving DecidableEq, Repr

/-- The constructor `TileSelector.__init__` as a fallible function. -/
def TileSelector.init (sources : List Source) (tileSize : Nat) : Except String TileSelector := do
  let (imgs, names) ← loadSheets tileSize sources
  return ⟨tileSize, imgs, names⟩

/-- The method `TileSelector.get_tile`: bounds-checked two-level lookup, `None` on any
out-of-range index. -/
def TileSelector.get_tile (ts : TileSelector) (tileset_idx tile_idx : Int) : Option TileImg :=
  if 0 ≤ tileset_idx ∧ tileset_idx < ts.tileset_images.length then
    let tiles := ts.tileset_images.getD tileset_idx.toNat []
    if 0 ≤ tile_idx ∧ tile_idx < tiles.length then
      some (tiles.getD tile_idx.toNat (0, 0))
    else none
  else none

/-- The method `TileSelector.get_tileset_count`. -/
def TileSelector.get_tileset_count (ts : TileSelector) : Nat :=
  ts.tileset_images.length

/-- The method `TileSelector.get_tile_count`: `0` for an invalid tileset index. -/
def TileSelector.get_tile_count (ts : TileSelector) (tileset_idx : Int) : Nat :=
  if 0 ≤ tileset_idx ∧ tileset_idx < ts.tileset_images.length then
    (ts.tileset_images.getD tileset_idx.toNat []).length
  else 0

/-! ## map_generator.py : data model -/

/-- A `pygame.Rect` as the generator uses it: integer position and size. -/
structure Rect where
  x : Int
  y : Int
  w : Int
  h : Int
deriving DecidableEq, Repr, Inhabited

/-- The accessor `pygame.Rect.center`: `(x + w / 2, y + h / 2)` with integer division
rounding toward zero (C semantics in pygame). -/
def Rect.center (r : Rect) : Int × Int := (r.x + Int.tdiv r.w 2, r.y + Int.tdiv r.h 2)

/-- The state of a `MapGenerator` object: grid dimensions, tile parameters,
the `tilemap` (`tilemap[x][y]`, `0` = Wall, `1` = Floor), the room list, and
the injected tile selector with the four current tile references. -/
structure MapGenerator where
  width : Nat
  height : Nat
  tile_size : Nat
  room_count : Nat
  room_min_size : Nat
  room_max_size : Nat
  tilemap : List (List Nat)
  rooms : List Rect
  tile_selector : TileSelector
  floor_tileset : Int
  floor_tile : Int
  wall_tileset : Int
  wall_tile : Int
deriving DecidableEq, Repr

/-- The constructor `MapGenerator.__init__` after the tileset files have been resolved: the
grid starts as `width` columns of `height` Wall cells, the room list empty,
and the room parameters fixed at 5 / 6 / 15. -/
def MapGenerator.init (width height tile_size : Nat) (ts : TileSelector)
    (floor_tileset floor_tile wall_tileset wall_tile : Int) : MapGenerator :=
  { width := width, height := height, tile_size := tile_size
    room_count := 5, room_min_size := 6, room_max_size := 15
    tilemap := List.replicate width (List.replicate height 0)
    rooms := []
    tile_selector := ts
    floor_tileset := floor_tileset, floor_tile := floor_tile
    wall_tileset := wall_tileset, wall_tile := wall_tile }

namespace MapGenerator

/-- Read `self.tilemap[a][b]` at non-negative indices (total, with a default
of `0` so that it agrees with the source wherever the source indexes the
list in range). -/
def cellN (g : MapGenerator) (a b : Nat) : Nat :=
  (g.tilemap.getD a []).getD b 0

/-- The assignment `self.tilemap[a][b] = v` (a no-op out of range, matching
the fact that the source only executes it on in-range indices). -/
def writeCell (tm : List (List Nat)) (a b v : Nat) : List (List Nat) :=
  tm.set a ((tm.getD a []).set b v)

/-- The statement `if 0 <= x < self.width and 0 <= y < self.height: self.tilemap[x][y] = 1`
— the guarded carve used by `create_room` and `create_corridor`. -/
def carveFloor (g : MapGenerator) (x y : Int) : MapGenerator :=
  if 0 ≤ x ∧ x < (g.width : Int) ∧ 0 ≤ y ∧ y < (g.height : Int) then
    { g with tilemap := writeCell g.tilemap x.toNat y.toNat 1 }
  else g

/-- Carve a whole sequence of positions in order. -/
def carveList (g : MapGenerator) (ps : List (Int × Int)) : MapGenerator :=
  ps.foldl (fun gg p => carveFloor gg p.1 p.2) g

/-- Python `range(a, b)` over integers. -/
def intRange (a b : Int) : List Int :=
  (List.range (b - a).toNat).map fun k : Nat => a + (k : Int)

/-- The cells visited by `create_room`'s nested
`for x in range(room.left, room.right): for y in range(room.top, room.bottom)`
loops, in visit order (`Rect.left = x`, `right = x + w`, `top = y`,
`bottom = y + h`). -/
def roomCells (room : Rect) : List (Int × Int) :=
  (intRange room.x (room.x + room.w)).flatMap fun x =>
    (intRange room.y (room.y + room.h)).map fun y => (x, y)

/-- The method `MapGenerator.create_room`. -/
def create_room (g : MapGenerator) (room : Rect) : MapGenerator :=
  carveList g (roomCells room)

/-- The cells visited by the `while x != x2` loop of `create_corridor`:
starting at `a`, stepping by `+1` if `a < b` else `-1`, stopping (exclusive)
at `b`.  The fuel `(b - a).natAbs` is exactly the number of iterations. -/
def walkAux : Nat → Int → Int → List Int
  | 0, _, _ => []
  | n + 1, a, b => if a = b then [] else a :: walkAux n (if a < b then a + 1 else a - 1) b

/-- The visited positions of one corridor-carving `while` loop. -/
def walkCells (a b : Int) : List Int := walkAux (b - a).natAbs a b

/-- All cells written by `create_corridor start end_`: the horizontal pass
writes `(x, y1)` for `x` walking from `x1` toward `x2` (exclusive), then the
vertical pass writes `(x2, y)` for `y` walking from `y1` toward `y2`
(exclusive). -/
def corridorCells (start end_ : Int × Int) : List (Int × Int) :=
  (walkCells start.1 end_.1).map (fun x => (x, start.2)) ++
    (walkCells start.2 end_.2).map (fun y => (end_.1, y))

/-- The method `MapGenerator.create_corridor`. -/
def create_corridor (g : MapGenerator) (start end_ : Int × Int) : MapGenerator :=
  carveList g (corridorCells start end_)

/-- The method `MapGenerator.set_tiles`. -/
def set_tiles (g : MapGenerator) (floor_tileset floor_tile wall_tileset wall_tile : Int) :
    MapGenerator :=
  { g with floor_tileset := floor_tileset, floor_tile := floor_tile
           wall_tileset := wall_tileset, wall_tile := wall_tile }

/-- The method `MapGenerator.get_tile_at`: the stored cell in bounds, `0` (Wall)
outside. -/
def get_tile_at (g : MapGenerator) (x y : Int) : Nat :=
  if 0 ≤ x ∧ x < (g.width : Int) ∧ 0 ≤ y ∧ y < (g.height : Int) then
    cellN g x.toNat y.toNat
  else 0

/-- The method `MapGenerator.is_walkable`. -/
def is_walkable (g : MapGenerator) (x y : Int) : Bool :=
  get_tile_at g x y == 1

/-! ### generate -/

/-- The index pairs visited by the nested loops
`for x in range(width): for y in range(height)`, in visit order. -/
def gridCells (W H : Nat) : List (Nat × Nat) :=
  (List.range W).flatMap fun x => (List.range H).map fun y => (x, y)

/-- Write `v` into a whole sequence of cells in order. -/
def writeCells (tm : List (List Nat)) (ps : List (Nat × Nat)) (v : Nat) : List (List Nat) :=
  ps.foldl (fun t p => writeCell t p.1 p.2 v) tm

/-- The prologue of `generate`: `self.rooms.clear()` and the nested loops
resetting `self.tilemap[x][y] = 0` for every `x < width`, `y < height`. -/
def resetState (g : MapGenerator) : MapGenerator :=
  { g with
    rooms := []
    tilemap := writeCells g.tilemap (gridCells g.width g.height) 0 }

/-- Python's `random.randint(a, b)`: raises `ValueError` when `b < a`, otherwise
returns a value in `[a, b]` drawn from position `k` of the ambient random
stream `rng`, together with the advanced stream position. -/
def randint (rng : Nat → Nat) (k : Nat) (a b : Int) : Except Unit (Int × Nat) :=
  if b < a then .error ()
  else .ok (a + ((rng k % (b - a + 1).toNat : Nat) : Int), k + 1)

/-- The mutation performed by one successful iteration `i` of `generate`'s
room loop, once the four random draws `w, h, x, y` are in hand: append
`room = Rect(x, y, w, h)`, carve it, and for `i > 0` carve the corridor from
`self.rooms[i - 1].center` to `room.center`. -/
def stepState (g : MapGenerator) (i : Nat) (x y w h : Int) : MapGenerator :=
  let room : Rect := ⟨x, y, w, h⟩
  let g1 := { g with rooms := g.rooms ++ [room] }
  let g2 := create_room g1 room
  if 0 < i then
    create_corridor g2 ((g2.rooms.getD (i - 1) default).center) room.center
  else g2

/-- The room-placement loop of `generate` (`for i in range(self.room_count)`),
recursing on the remaining iteration count `n` with loop index `i` and random
stream position `k`.  A `ValueError` from `random.randint` propagates as an
error carrying the object state mutated so far. -/
def genLoop (rng : Nat → Nat) : Nat → Nat → Nat → MapGenerator →
    Except MapGenerator (MapGenerator × Nat)
  | _, 0, k, g => .ok (g, k)
  | i, n + 1, k, g =>
    match randint rng k (g.room_min_size : Int) (g.room_max_size : Int) with
    | .error _ => .error g
    | .ok (w, k1) =>
      match randint rng k1 (g.room_min_size : Int) (g.room_max_size : Int) with
      | .error _ => .error g
      | .ok (h, k2) =>
        match randint rng k2 1 ((g.width : Int) - w - 1) with
        | .error _ => .error g
        | .ok (x, k3) =>
          match randint rng k3 1 ((g.height : Int) - h - 1) with
          | .error _ => .error g
          | .ok (y, k4) => genLoop rng (i + 1) n k4 (stepState g i x y w h)

/-- The method `MapGenerator.generate`: clear the rooms, reset the grid to Wall, then
run the placement loop.  On an uncaught `ValueError` the error value is the
object state at the moment the exception propagates. -/
def generate (rng : Nat → Nat) (g : MapGenerator) : Except MapGenerator MapGenerator :=
  match genLoop rng 0 g.room_count 0 (resetState g) with
  | .error g' => .error g'
  | .ok (g', _) => .ok g'

/-! ### draw -/

/-- One captured call on the render surface: either `surface.blit(img, pos)`
or `pygame.draw.rect(surface, color, rect)`. -/
inductive DrawCall where
  | blit (img : TileImg) (pos : Int × Int)
  | fillRect (color : Nat × Nat × Nat) (rect : Int × Int × Int × Int)
deriving DecidableEq, Repr

/-- The visible column range of `draw`:
`range(max(0, camera_x // tile_size), min(width, (camera_x + screen_w) // tile_size + 1))`
(Python `//` is floor division). -/
def drawWindowXs (g : MapGenerator) (camera_x : Int) (screen_w : Nat) : List Int :=
  intRange (max 0 (Int.fdiv camera_x (g.tile_size : Int)))
    (min (g.width : Int) (Int.fdiv (camera_x + (screen_w : Int)) (g.tile_size : Int) + 1))

/-- The visible row range of `draw`. -/
def drawWindowYs (g : MapGenerator) (camera_y : Int) (screen_h : Nat) : List Int :=
  intRange (max 0 (Int.fdiv camera_y (g.tile_size : Int)))
    (min (g.height : Int) (Int.fdiv (camera_y + (screen_h : Int)) (g.tile_size : Int) + 1))

/-- The surface call pass 1 emits for a Floor cell `(x, y)`: blit the floor
tile if available, else fill a light-gray square. -/
def floorDrawCall (g : MapGenerator) (camera_x camera_y : Int) (x y : Int) : DrawCall :=
  let sx := x * (g.tile_size : Int) - camera_x
  let sy := y * (g.tile_size : Int) - camera_y
  match g.tile_selector.get_tile g.floor_tileset g.floor_tile with
  | some t => .blit t (sx, sy)
  | none => .fillRect (200, 200, 200) (sx, sy, (g.tile_size : Int), (g.tile_size : Int))

/-- The surface call pass 2 emits for a drawn wall cell `(x, y)`: blit the
wall tile if available, else fill a brown square. -/
def wallDrawCall (g : MapGenerator) (camera_x camera_y : Int) (x y : Int) : DrawCall :=
  let sx := x * (g.tile_size : Int) - camera_x
  let sy := y * (g.tile_size : Int) - camera_y
  match g.tile_selector.get_tile g.wall_tileset g.wall_tile with
  | some t => .blit t (sx, sy)
  | none => .fillRect (80, 60, 40) (sx, sy, (g.tile_size : Int), (g.tile_size : Int))

/-- Pass 1 of `draw`: one call per Floor cell of the visible window, in loop
order. -/
def drawFloorPass (g : MapGenerator) (camera_x camera_y : Int) (screen_w screen_h : Nat) :
    List DrawCall :=
  (drawWindowXs g camera_x screen_w).flatMap fun x =>
    (drawWindowYs g camera_y screen_h).filterMap fun y =>
      if cellN g x.toNat y.toNat = 1 then some (floorDrawCall g camera_x camera_y x y)
      else none

/-- Pass 2 of `draw`: one call per visible Wall cell whose cell directly
below exists (`y < height - 1`) and is Floor. -/
def drawWallPass (g : MapGenerator) (camera_x camera_y : Int) (screen_w screen_h : Nat) :
    List DrawCall :=
  (drawWindowXs g camera_x screen_w).flatMap fun x =>
    (drawWindowYs g camera_y screen_h).filterMap fun y =>
      if cellN g x.toNat y.toNat = 0 ∧ y < (g.height : Int) - 1 ∧
          cellN g x.toNat (y + 1).toNat = 1 then
        some (wallDrawCall g camera_x camera_y x y)
      else none

/-- The method `MapGenerator.draw` as the ordered sequence of surface calls it emits:
all of pass 1, then all of pass 2. -/
def draw (g : MapGenerator) (camera_x camera_y : Int) (screen_w screen_h : Nat) :
    List DrawCall :=
  drawFloorPass g camera_x camera_y screen_w screen_h ++
    drawWallPass g camera_x camera_y screen_w screen_h

end MapGenerator

/-- The grid representation invariant: `tilemap` is a `width`-length list of
`height`-length columns whose entries are all `0` (Wall) or `1` (Floor). -/
def GridInv (g : MapGenerator) : Prop :=
  g.tilemap.length = g.width ∧
    ∀ col ∈ g.tilemap, col.length = g.height ∧ ∀ v ∈ col, v = 0 ∨ v = 1

instance instDecEqExcept {ε α : Type} [DecidableEq ε] [DecidableEq α] :
    DecidableEq (Except ε α) := fun a b =>
  match a, b with
  | .ok x, .ok y => decidable_of_iff (x = y) (by simp)
  | .ok _, .error _ => .isFalse (by simp)
  | .error _, .ok _ => .isFalse (by simp)
  | .error x, .error y => decidable_of_iff (x = y) (by simp)

instance instDecGridInv (g : MapGenerator) : Decidable (GridInv g) := by
  unfold GridInv; infer_instance

open MapGenerator

/-- The placement facts guaranteed by the `random.randint` ranges of
`generate` for every room it appends. -/
def RoomOK (W H : Nat) (r : Rect) : Prop :=
  1 ≤ r.x ∧ 1 ≤ r.y ∧ 0 < r.w ∧ 0 < r.h ∧
    r.x + r.w ≤ (W : Int) - 1 ∧ r.y + r.h ≤ (H : Int) - 1

/-- The point `p` is inside the grid and its cell is Floor. -/
def FloorCell (g : MapGenerator) (p : Int × Int) : Prop :=
  0 ≤ p.1 ∧ p.1 < (g.width : Int) ∧ 0 ≤ p.2 ∧ p.2 < (g.height : Int) ∧
    cellN g p.1.toNat p.2.toNat = 1

/-- Every cell visited by the L-walk from `s` to `e` (the cells the corridor
carve writes, plus the end point itself). -/
def pathCells (s e : Int × Int) : List (Int × Int) :=
  corridorCells s e ++ [e]

/-- Adjacent room centers are connected: every cell of the L-walk between
the centers of rooms `i - 1` and `i` is an in-bounds Floor cell. -/
def Connected (g : MapGenerator) : Prop :=
  ∀ i : Nat, 0 < i → i < g.rooms.length →
    ∀ p ∈ pathCells ((g.rooms.getD (i - 1) default).center)
        ((g.rooms.getD i default).center), FloorCell g p

/-- The loop invariant of `generate`'s room loop. -/
def GoodState (g : MapGenerator) : Prop :=
  GridInv g ∧ (∀ r ∈ g.rooms, RoomOK g.width g.height r) ∧
    (∀ r ∈ g.rooms, FloorCell g r.center) ∧ Connected g

/-- A concrete empty tile selector for witness states. -/
def demoTileSelector : TileSelector := ⟨48, [], []⟩

/-- A small concrete generator state, as built by the constructor. -/
def demoMap : MapGenerator := MapGenerator.init 9 9 48 demoTileSelector 0 0 0 1

/-- A concrete random stream. -/
def demoRng : Nat → Nat := fun _ => 0

/-- The state produced by a successful `generate` run on `demoMap`. -/
def demoGen : MapGenerator := ((generate demoRng demoMap).toOption).getD demoMap

/-- A 10×10 state whose grid is too small for the largest drawable room
size (10 - 15 - 1 < 1), with a non-empty room list to observe clearing. -/
def badMap : MapGenerator :=
  { MapGenerator.init 10 10 48 demoTileSelector 0 0 0 1 with rooms := [⟨1, 1, 3, 3⟩] }

/-- A random stream that draws the maximal room size 15 first. -/
def badRng : Nat → Nat := fun _ => 9

/-! ## Basic list lemmas -/

theorem getD_set' {α : Type} (l : List α) (i j : Nat) (v d : α) :
    (l.set i v).getD j d = if i = j ∧ i < l.length then v else l.getD j d := by
  induction l generalizing i j with
  | nil => simp
  | cons a as ih =>
    cases i with
    | zero => cases j <;> simp
    | succ i =>
      cases j with
      | zero => simp
      | succ j =>
        simp only [List.set_cons_succ, List.getD_cons_succ, List.length_cons, ih i j]
        have : (i = j ∧ i < as.length) ↔ (i + 1 = j + 1 ∧ i + 1 < as.length + 1) := by omega
        by_cases h : i = j ∧ i < as.length
        · rw [if_pos h, if_pos (this.mp h)]
        · rw [if_neg h, if_neg (fun hc => h (this.mpr hc))]

theorem mem_of_mem_set {α : Type} {l : List α} {i : Nat} {v x : α}
    (h : x ∈ l.set i v) : x ∈ l ∨ x = v := by
  induction l generalizing i with
  | nil => simp at h
  | cons a as ih =>
    cases i with
    | zero =>
      rcases List.mem_cons.mp h with h1 | h1
      · exact .inr h1
      · exact .inl (List.mem_cons_of_mem _ h1)
    | succ i =>
      rcases List.mem_cons.mp h with h1 | h1
      · exact .inl (h1 ▸ List.mem_cons_self _ _)
      · rcases ih h1 with h2 | h2
        · exact .inl (List.mem_cons_of_mem _ h2)
        · exact .inr h2

theorem getD_append_left' {α : Type} (l l' : List α) (i : Nat) (d : α) (h : i < l.length) :
    (l ++ l').getD i d = l.getD i d := by
  induction l generalizing i with
  | nil => simp at h
  | cons a as ih =>
    cases i with
    | zero => simp
    | succ i =>
      simp only [List.cons_append, List.getD_cons_succ]
      exact ih i (by simp at h; omega)

theorem getD_append_length {α : Type} (l : List α) (a d : α) :
    (l ++ [a]).getD l.length d = a := by
  induction l with
  | nil => simp
  | cons b bs ih => simpa using ih

theorem mem_intRange {a b z : Int} : z ∈ MapGenerator.intRange a b ↔ a ≤ z ∧ z < b := by
  unfold MapGenerator.intRange
  simp only [List.mem_map, List.mem_range]
  constructor
  · rintro ⟨k, hk, rfl⟩
    by_cases hba : 0 ≤ b - a
    · have h2 : ((b - a).toNat : Int) = b - a := Int.toNat_of_nonneg hba
      have hk' : (k : Int) < ((b - a).toNat : Int) := by exact_mod_cast hk
      omega
    · have h0 : (b - a).toNat = 0 := Int.toNat_of_nonpos (by omega)
      rw [h0] at hk
      exact absurd hk (Nat.not_lt_zero k)
  · intro h
    refine ⟨(z - a).toNat, ?_, ?_⟩
    · have hzb : z - a < b - a := by omega
      exact (Int.toNat_lt_toNat (by omega)).mpr hzb
    · rw [Int.toNat_of_nonneg (by omega)]; omega


/-! ## Walk and write characterizations -/

theorem natAbs_cases (m : Int) (n : Nat) (h : n = m.natAbs) :
    m = (n : Int) ∨ m = -(n : Int) := by
  subst h; exact Int.natAbs_eq m

theorem mem_walkAux : ∀ (n : Nat) (a b z : Int), n = (b - a).natAbs →
    (z ∈ walkAux n a b ↔ (a ≤ z ∧ z < b) ∨ (b < z ∧ z ≤ a)) := by
  intro n
  induction n with
  | zero =>
    intro a b z h
    have hd := natAbs_cases (b - a) 0 h
    have hab : a = b := by rcases hd with h1 | h1 <;> omega
    simp only [walkAux, List.not_mem_nil, false_iff]
    omega
  | succ n ih =>
    intro a b z h
    have hd := natAbs_cases (b - a) (n + 1) h
    have hab : ¬a = b := by rcases hd with h1 | h1 <;> omega
    simp only [walkAux, if_neg hab]
    by_cases hlt : a < b
    · rw [if_pos hlt, List.mem_cons,
        ih (a + 1) b z (by
          have h2 := natAbs_cases (b - (a + 1)) ((b - (a + 1)).natAbs) rfl
          rcases hd with h1 | h1 <;> rcases h2 with h3 | h3 <;> omega)]
      omega
    · rw [if_neg hlt, List.mem_cons,
        ih (a - 1) b z (by
          have h2 := natAbs_cases (b - (a - 1)) ((b - (a - 1)).natAbs) rfl
          rcases hd with h1 | h1 <;> rcases h2 with h3 | h3 <;> omega)]
      omega

theorem mem_walkCells {a b z : Int} :
    z ∈ walkCells a b ↔ (a ≤ z ∧ z < b) ∨ (b < z ∧ z ≤ a) :=
  mem_walkAux _ a b z rfl

theorem getD2_writeCell (tm : List (List Nat)) (i j v a b : Nat) :
    ((writeCell tm i j v).getD a []).getD b 0 =
      if i = a ∧ j = b ∧ i < tm.length ∧ j < (tm.getD i []).length then v
      else (tm.getD a []).getD b 0 := by
  unfold writeCell
  rw [getD_set']
  by_cases hia : i = a ∧ i < tm.length
  · obtain ⟨rfl, hlen⟩ := hia
    rw [if_pos ⟨rfl, hlen⟩, getD_set']
    split_ifs <;> tauto
  · rw [if_neg hia, if_neg (by tauto)]

theorem length_writeCell (tm : List (List Nat)) (i j v : Nat) :
    (writeCell tm i j v).length = tm.length := by
  simp [writeCell]

theorem getD_writeCell_length (tm : List (List Nat)) (i j v a : Nat) :
    ((writeCell tm i j v).getD a []).length = (tm.getD a []).length := by
  unfold writeCell
  rw [getD_set']
  split_ifs with h
  · obtain ⟨rfl, _⟩ := h; simp
  · rfl

theorem mem_writeCell {tm : List (List Nat)} {i j v : Nat} {col : List Nat}
    (h : col ∈ writeCell tm i j v) :
    col ∈ tm ∨ ∃ col' ∈ tm, col = col'.set j v := by
  by_cases hlen : i < tm.length
  · unfold writeCell at h
    rcases mem_of_mem_set h with h1 | h1
    · exact .inl h1
    · refine .inr ⟨tm.getD i [], ?_, h1⟩
      rw [List.getD_eq_getElem _ _ hlen]
      exact List.getElem_mem hlen
  · unfold writeCell at h
    rw [List.set_eq_of_length_le (by omega)] at h
    exact .inl h

/-! ## carveFloor and carveList -/

theorem carveFloor_width (g : MapGenerator) (x y : Int) :
    (carveFloor g x y).width = g.width := by
  unfold carveFloor; split <;> rfl

theorem carveFloor_height (g : MapGenerator) (x y : Int) :
    (carveFloor g x y).height = g.height := by
  unfold carveFloor; split <;> rfl

theorem carveFloor_rooms (g : MapGenerator) (x y : Int) :
    (carveFloor g x y).rooms = g.rooms := by
  unfold carveFloor; split <;> rfl

theorem carveFloor_room_fields (g : MapGenerator) (x y : Int) :
    (carveFloor g x y).room_count = g.room_count ∧
      (carveFloor g x y).room_min_size = g.room_min_size ∧
      (carveFloor g x y).room_max_size = g.room_max_size := by
  unfold carveFloor; split <;> exact ⟨rfl, rfl, rfl⟩

theorem gridInv_carveFloor {g : MapGenerator} (hInv : GridInv g) (x y : Int) :
    GridInv (carveFloor g x y) := by
  obtain ⟨hlen, hcols⟩ := hInv
  unfold carveFloor
  split
  · refine ⟨by simpa [length_writeCell] using hlen, ?_⟩
    intro col hcol
    rcases mem_writeCell hcol with h1 | ⟨col', hcol', rfl⟩
    · exact hcols col h1
    · obtain ⟨hl, hv⟩ := hcols col' hcol'
      refine ⟨by simpa using hl, ?_⟩
      intro v hv'
      rcases mem_of_mem_set hv' with h2 | h2
      · exact hv v h2
      · exact .inr h2
  · exact ⟨hlen, hcols⟩

theorem cellN_carveFloor {g : MapGenerator} (hInv : GridInv g) (x y : Int) (a b : Nat)
    (ha : a < g.width) (hb : b < g.height) :
    cellN (carveFloor g x y) a b =
      if x = (a : Int) ∧ y = (b : Int) then 1 else cellN g a b := by
  obtain ⟨hlen, hcols⟩ := hInv
  unfold carveFloor
  split
  · next hg =>
    show ((writeCell g.tilemap x.toNat y.toNat 1).getD a []).getD b 0 = _
    rw [getD2_writeCell]
    have hxa : (x.toNat = a) ↔ (x = (a : Int)) := by omega
    have hyb : (y.toNat = b) ↔ (y = (b : Int)) := by omega
    by_cases hc : x = (a : Int) ∧ y = (b : Int)
    · obtain ⟨hx, hy⟩ := hc
      have hxN : x.toNat = a := hxa.mpr hx
      have hyN : y.toNat = b := hyb.mpr hy
      have hmem : g.tilemap.getD x.toNat [] ∈ g.tilemap := by
        rw [List.getD_eq_getElem _ _ (by omega)]
        exact List.getElem_mem (by omega)
      have hclen : (g.tilemap.getD x.toNat []).length = g.height :=
        (hcols _ hmem).1
      rw [if_pos ⟨hxN, hyN, by omega, by omega⟩, if_pos ⟨hx, hy⟩]
    · rw [if_neg (fun hcc => hc ⟨hxa.mp hcc.1, hyb.mp hcc.2.1⟩), if_neg hc]
      rfl
  · next hg =>
    rw [if_neg (by omega)]

theorem carveList_cons (g : MapGenerator) (p : Int × Int) (ps : List (Int × Int)) :
    carveList g (p :: ps) = carveList (carveFloor g p.1 p.2) ps := rfl

theorem carveList_width (g : MapGenerator) (ps : List (Int × Int)) :
    (carveList g ps).width = g.width := by
  induction ps generalizing g with
  | nil => rfl
  | cons p ps ih => rw [carveList_cons, ih, carveFloor_width]

theorem carveList_height (g : MapGenerator) (ps : List (Int × Int)) :
    (carveList g ps).height = g.height := by
  induction ps generalizing g with
  | nil => rfl
  | cons p ps ih => rw [carveList_cons, ih, carveFloor_height]

theorem carveList_rooms (g : MapGenerator) (ps : List (Int × Int)) :
    (carveList g ps).rooms = g.rooms := by
  induction ps generalizing g with
  | nil => rfl
  | cons p ps ih => rw [carveList_cons, ih, carveFloor_rooms]

theorem carveList_room_fields (g : MapGenerator) (ps : List (Int × Int)) :
    (carveList g ps).room_count = g.room_count ∧
      (carveList g ps).room_min_size = g.room_min_size ∧
      (carveList g ps).room_max_size = g.room_max_size := by
  induction ps generalizing g with
  | nil => exact ⟨rfl, rfl, rfl⟩
  | cons p ps ih =>
    rw [carveList_cons]
    obtain ⟨h1, h2, h3⟩ := ih (carveFloor g p.1 p.2)
    obtain ⟨h4, h5, h6⟩ := carveFloor_room_fields g p.1 p.2
    exact ⟨h1.trans h4, h2.trans h5, h3.trans h6⟩

theorem gridInv_carveList {g : MapGenerator} (hInv : GridInv g) (ps : List (Int × Int)) :
    GridInv (carveList g ps) := by
  induction ps generalizing g with
  | nil => exact hInv
  | cons p ps ih => rw [carveList_cons]; exact ih (gridInv_carveFloor hInv p.1 p.2)

theorem cellN_carveList {g : MapGenerator} (hInv : GridInv g) (ps : List (Int × Int))
    (a b : Nat) (ha : a < g.width) (hb : b < g.height) :
    cellN (carveList g ps) a b =
      if ((a : Int), (b : Int)) ∈ ps then 1 else cellN g a b := by
  induction ps generalizing g with
  | nil => simp [carveList]
  | cons p ps ih =>
    rw [carveList_cons,
      ih (gridInv_carveFloor hInv p.1 p.2)
        (by rwa [carveFloor_width]) (by rwa [carveFloor_height]),
      cellN_carveFloor hInv p.1 p.2 a b ha hb]
    by_cases hm : ((a : Int), (b : Int)) ∈ ps
    · rw [if_pos hm, if_pos (List.mem_cons_of_mem p hm)]
    · rw [if_neg hm]
      by_cases hp : p.1 = (a : Int) ∧ p.2 = (b : Int)
      · have : ((a : Int), (b : Int)) ∈ p :: ps := by
          rw [List.mem_cons]
          exact .inl (by rw [Prod.ext_iff]; exact ⟨hp.1.symm, hp.2.symm⟩)
        rw [if_pos hp, if_pos this]
      · have : ¬((a : Int), (b : Int)) ∈ p :: ps := by
          rw [List.mem_cons]
          rintro (h1 | h1)
          · exact hp ⟨congrArg Prod.fst h1.symm, congrArg Prod.snd h1.symm⟩
          · exact hm h1
        rw [if_neg hp, if_neg this]

theorem cellN_carveFloor_mono {g : MapGenerator} {a b : Nat} (x y : Int)
    (h : cellN g a b = 1) : cellN (carveFloor g x y) a b = 1 := by
  unfold carveFloor
  split
  · show ((writeCell g.tilemap x.toNat y.toNat 1).getD a []).getD b 0 = 1
    rw [getD2_writeCell]
    split
    · rfl
    · exact h
  · exact h

theorem cellN_carveList_mono {g : MapGenerator} {a b : Nat} (ps : List (Int × Int))
    (h : cellN g a b = 1) : cellN (carveList g ps) a b = 1 := by
  induction ps generalizing g with
  | nil => exact h
  | cons p ps ih => rw [carveList_cons]; exact ih (cellN_carveFloor_mono p.1 p.2 h)

/-! ## Cell lists of rooms and corridors -/

theorem mem_roomCells {r : Rect} {p : Int × Int} :
    p ∈ roomCells r ↔
      r.x ≤ p.1 ∧ p.1 < r.x + r.w ∧ r.y ≤ p.2 ∧ p.2 < r.y + r.h := by
  unfold roomCells
  simp only [List.mem_flatMap, List.mem_map]
  constructor
  · rintro ⟨x, hx, y, hy, rfl⟩
    have h1 := mem_intRange.mp hx
    have h2 := mem_intRange.mp hy
    exact ⟨h1.1, h1.2, h2.1, h2.2⟩
  · rintro ⟨h1, h2, h3, h4⟩
    exact ⟨p.1, mem_intRange.mpr ⟨h1, h2⟩, p.2, mem_intRange.mpr ⟨h3, h4⟩, rfl⟩

theorem mem_corridorCells {s e p : Int × Int} :
    p ∈ corridorCells s e ↔
      (p.2 = s.2 ∧ p.1 ∈ walkCells s.1 e.1) ∨
        (p.1 = e.1 ∧ p.2 ∈ walkCells s.2 e.2) := by
  unfold corridorCells
  simp only [List.mem_append, List.mem_map]
  constructor
  · rintro (⟨x, hx, rfl⟩ | ⟨y, hy, rfl⟩)
    · exact .inl ⟨rfl, hx⟩
    · exact .inr ⟨rfl, hy⟩
  · rintro (⟨h1, h2⟩ | ⟨h1, h2⟩)
    · refine .inl ⟨p.1, h2, ?_⟩
      rw [Prod.ext_iff]
      exact ⟨rfl, h1.symm⟩
    · refine .inr ⟨p.2, h2, ?_⟩
      rw [Prod.ext_iff]
      exact ⟨h1.symm, rfl⟩

theorem rect_center_mem_roomCells {r : Rect} (hw : 0 < r.w) (hh : 0 < r.h) :
    r.center ∈ roomCells r := by
  rw [mem_roomCells]
  unfold Rect.center
  have hw2 : Int.tdiv r.w 2 = r.w / 2 := Int.tdiv_eq_ediv (by omega) (by omega)
  have hh2 : Int.tdiv r.h 2 = r.h / 2 := Int.tdiv_eq_ediv (by omega) (by omega)
  refine ⟨?_, ?_, ?_, ?_⟩ <;> simp only [hw2, hh2] <;> omega

/-! ## resetState -/

theorem resetState_fields (g : MapGenerator) :
    (resetState g).width = g.width ∧ (resetState g).height = g.height ∧
      (resetState g).room_count = g.room_count ∧
      (resetState g).room_min_size = g.room_min_size ∧
      (resetState g).room_max_size = g.room_max_size ∧
      (resetState g).rooms = [] :=
  ⟨rfl, rfl, rfl, rfl, rfl, rfl⟩

theorem mem_gridCells {W H : Nat} {p : Nat × Nat} :
    p ∈ gridCells W H ↔ p.1 < W ∧ p.2 < H := by
  unfold gridCells
  simp only [List.mem_flatMap, List.mem_map, List.mem_range]
  constructor
  · rintro ⟨x, hx, y, hy, rfl⟩
    exact ⟨hx, hy⟩
  · rintro ⟨h1, h2⟩
    exact ⟨p.1, h1, p.2, h2, rfl⟩

theorem writeCells_cons (tm : List (List Nat)) (p : Nat × Nat) (ps : List (Nat × Nat)) (v : Nat) :
    writeCells tm (p :: ps) v = writeCells (writeCell tm p.1 p.2 v) ps v := rfl

theorem length_writeCells (tm : List (List Nat)) (ps : List (Nat × Nat)) (v : Nat) :
    (writeCells tm ps v).length = tm.length := by
  induction ps generalizing tm with
  | nil => rfl
  | cons p ps ih => rw [writeCells_cons, ih, length_writeCell]

theorem getD_writeCells_length (tm : List (List Nat)) (ps : List (Nat × Nat)) (v a : Nat) :
    ((writeCells tm ps v).getD a []).length = (tm.getD a []).length := by
  induction ps generalizing tm with
  | nil => rfl
  | cons p ps ih => rw [writeCells_cons, ih, getD_writeCell_length]

theorem getD2_writeCells (tm : List (List Nat)) (ps : List (Nat × Nat)) (v a b : Nat)
    (ha : a < tm.length) (hb : b < (tm.getD a []).length) :
    ((writeCells tm ps v).getD a []).getD b 0 =
      if (a, b) ∈ ps then v else (tm.getD a []).getD b 0 := by
  induction ps generalizing tm with
  | nil => simp [writeCells]
  | cons p ps ih =>
    rw [writeCells_cons,
      ih (writeCell tm p.1 p.2 v) (by rwa [length_writeCell])
        (by rwa [getD_writeCell_length]),
      getD2_writeCell]
    by_cases hm : (a, b) ∈ ps
    · rw [if_pos hm, if_pos (List.mem_cons_of_mem p hm)]
    · rw [if_neg hm]
      by_cases hp : p.1 = a ∧ p.2 = b
      · obtain ⟨h1, h2⟩ := hp
        have hcond : p.1 = a ∧ p.2 = b ∧ p.1 < tm.length ∧ p.2 < (tm.getD p.1 []).length := by
          subst h1; subst h2
          exact ⟨rfl, rfl, ha, hb⟩
        rw [if_pos hcond,
          if_pos (List.mem_cons.mpr (.inl (by rw [Prod.ext_iff]; exact ⟨h1.symm, h2.symm⟩)))]
      · have hnc : ¬(a, b) ∈ p :: ps := by
          rw [List.mem_cons]
          rintro (h1 | h1)
          · exact hp ⟨congrArg Prod.fst h1.symm, congrArg Prod.snd h1.symm⟩
          · exact hm h1
        rw [if_neg (fun hcc => hp ⟨hcc.1, hcc.2.1⟩), if_neg hnc]

theorem entries_writeCells {tm : List (List Nat)} {ps : List (Nat × Nat)} {v : Nat}
    (P : Nat → Prop) (hv : P v) (htm : ∀ col ∈ tm, ∀ e ∈ col, P e) :
    ∀ col ∈ writeCells tm ps v, ∀ e ∈ col, P e := by
  induction ps generalizing tm with
  | nil => exact htm
  | cons p ps ih =>
    rw [writeCells_cons]
    refine ih ?_
    intro col hcol e he
    rcases mem_writeCell hcol with h1 | ⟨col', hcol', rfl⟩
    · exact htm col h1 e he
    · rcases mem_of_mem_set he with h2 | h2
      · exact htm col' hcol' e h2
      · exact h2 ▸ hv

theorem gridInv_resetState {g : MapGenerator} (hInv : GridInv g) :
    GridInv (resetState g) := by
  obtain ⟨hlen, hcols⟩ := hInv
  have hlen' : (writeCells g.tilemap (gridCells g.width g.height) 0).length =
      g.tilemap.length := length_writeCells _ _ _
  constructor
  · show (writeCells g.tilemap (gridCells g.width g.height) 0).length = g.width
    rw [hlen']; exact hlen
  · intro col hcol
    refine ⟨?_, ?_⟩
    · replace hcol : col ∈ writeCells g.tilemap (gridCells g.width g.height) 0 := hcol
      obtain ⟨i, hi, hieq⟩ := List.mem_iff_getElem.mp hcol
      have h1 : (writeCells g.tilemap (gridCells g.width g.height) 0).getD i [] = col := by
        rw [List.getD_eq_getElem _ _ hi, hieq]
      have h2 : i < g.tilemap.length := by rw [← hlen']; exact hi
      have h3 : g.tilemap.getD i [] ∈ g.tilemap := by
        rw [List.getD_eq_getElem _ _ h2]
        exact List.getElem_mem h2
      have h4 := getD_writeCells_length g.tilemap (gridCells g.width g.height) 0 i
      rw [h1] at h4
      rw [h4]
      exact (hcols _ h3).1
    · exact fun v hv =>
        entries_writeCells (fun e => e = 0 ∨ e = 1) (.inl rfl)
          (fun c hc e he => (hcols c hc).2 e he) col hcol v hv

theorem cellN_resetState {g : MapGenerator} (hInv : GridInv g) (a b : Nat)
    (ha : a < g.width) (hb : b < g.height) : cellN (resetState g) a b = 0 := by
  obtain ⟨hlen, hcols⟩ := hInv
  have h2 : a < g.tilemap.length := by omega
  have h3 : g.tilemap.getD a [] ∈ g.tilemap := by
    rw [List.getD_eq_getElem _ _ h2]
    exact List.getElem_mem h2
  have hb' : b < (g.tilemap.getD a []).length := by rw [(hcols _ h3).1]; omega
  show ((writeCells g.tilemap (gridCells g.width g.height) 0).getD a []).getD b 0 = 0
  rw [getD2_writeCells _ _ _ _ _ h2 hb', if_pos (mem_gridCells.mpr ⟨ha, hb⟩)]

/-! ## The generation invariant -/

theorem floorCell_carveList {g : MapGenerator} {p : Int × Int} (ps : List (Int × Int))
    (h : FloorCell g p) : FloorCell (carveList g ps) p := by
  obtain ⟨h1, h2, h3, h4, h5⟩ := h
  refine ⟨h1, ?_, h3, ?_, cellN_carveList_mono ps h5⟩
  · rw [carveList_width]; exact h2
  · rw [carveList_height]; exact h4

theorem floorCell_of_carve {g : MapGenerator} (hInv : GridInv g) {p : Int × Int}
    {ps : List (Int × Int)} (hmem : p ∈ ps) (h1 : 0 ≤ p.1) (h2 : p.1 < (g.width : Int))
    (h3 : 0 ≤ p.2) (h4 : p.2 < (g.height : Int)) :
    FloorCell (carveList g ps) p := by
  have hc1 : ((p.1.toNat : Nat) : Int) = p.1 := Int.toNat_of_nonneg h1
  have hc2 : ((p.2.toNat : Nat) : Int) = p.2 := Int.toNat_of_nonneg h3
  refine ⟨h1, ?_, h3, ?_, ?_⟩
  · rw [carveList_width]; exact h2
  · rw [carveList_height]; exact h4
  · rw [cellN_carveList hInv ps p.1.toNat p.2.toNat (by omega) (by omega)]
    have hpair : ((p.1.toNat : Int), (p.2.toNat : Int)) = p := by
      rw [Prod.ext_iff]; exact ⟨hc1, hc2⟩
    rw [hpair, if_pos hmem]

theorem randint_ok {rng : Nat → Nat} {k : Nat} {a b v : Int} {k' : Nat}
    (h : randint rng k a b = .ok (v, k')) : a ≤ v ∧ v ≤ b ∧ k' = k + 1 := by
  unfold randint at h
  split at h
  · exact absurd h (by simp)
  · next hba =>
    have hinj := Except.ok.inj h
    have h1 : v = a + ((rng k % (b - a + 1).toNat : Nat) : Int) :=
      (congrArg Prod.fst hinj).symm
    have h2 : k' = k + 1 := (congrArg Prod.snd hinj).symm
    have hc : ((b - a + 1).toNat : Int) = b - a + 1 := Int.toNat_of_nonneg (by omega)
    have hmod : rng k % (b - a + 1).toNat < (b - a + 1).toNat :=
      Nat.mod_lt _ (by omega)
    have hmod' : ((rng k % (b - a + 1).toNat : Nat) : Int) < ((b - a + 1).toNat : Int) := by
      exact_mod_cast hmod
    have hnn : 0 ≤ ((rng k % (b - a + 1).toNat : Nat) : Int) := Int.ofNat_nonneg _
    refine ⟨by omega, by omega, h2⟩

theorem stepState_fields (g : MapGenerator) (i : Nat) (x y w h : Int) :
    (stepState g i x y w h).width = g.width ∧
      (stepState g i x y w h).height = g.height ∧
      (stepState g i x y w h).rooms = g.rooms ++ [⟨x, y, w, h⟩] ∧
      (stepState g i x y w h).room_count = g.room_count ∧
      (stepState g i x y w h).room_min_size = g.room_min_size ∧
      (stepState g i x y w h).room_max_size = g.room_max_size := by
  unfold stepState create_room create_corridor
  split
  · refine ⟨?_, ?_, ?_, ?_, ?_, ?_⟩ <;>
      simp [carveList_width, carveList_height, carveList_rooms,
        (carveList_room_fields _ _).1, (carveList_room_fields _ _).2.1,
        (carveList_room_fields _ _).2.2]
  · refine ⟨?_, ?_, ?_, ?_, ?_, ?_⟩ <;>
      simp [carveList_width, carveList_height, carveList_rooms,
        (carveList_room_fields _ _).1, (carveList_room_fields _ _).2.1,
        (carveList_room_fields _ _).2.2]

theorem gridInv_stepState {g : MapGenerator} (hInv : GridInv g) (i : Nat) (x y w h : Int) :
    GridInv (stepState g i x y w h) := by
  have hInv1 : GridInv { g with rooms := g.rooms ++ [(⟨x, y, w, h⟩ : Rect)] } := hInv
  unfold stepState create_room create_corridor
  split
  · exact gridInv_carveList (gridInv_carveList hInv1 _) _
  · exact gridInv_carveList hInv1 _

theorem gridInv_create_room {g : MapGenerator} (hInv : GridInv g) (r : Rect) :
    GridInv (create_room g r) := gridInv_carveList hInv _

theorem gridInv_create_corridor {g : MapGenerator} (hInv : GridInv g) (s e : Int × Int) :
    GridInv (create_corridor g s e) := gridInv_carveList hInv _

theorem create_room_rooms (g : MapGenerator) (r : Rect) :
    (create_room g r).rooms = g.rooms := carveList_rooms _ _

theorem create_room_width (g : MapGenerator) (r : Rect) :
    (create_room g r).width = g.width := carveList_width _ _

theorem create_room_height (g : MapGenerator) (r : Rect) :
    (create_room g r).height = g.height := carveList_height _ _

theorem create_corridor_rooms (g : MapGenerator) (s e : Int × Int) :
    (create_corridor g s e).rooms = g.rooms := carveList_rooms _ _

theorem create_corridor_width (g : MapGenerator) (s e : Int × Int) :
    (create_corridor g s e).width = g.width := carveList_width _ _

theorem create_corridor_height (g : MapGenerator) (s e : Int × Int) :
    (create_corridor g s e).height = g.height := carveList_height _ _

theorem floorCell_create_room {g : MapGenerator} {p : Int × Int} (r : Rect)
    (h : FloorCell g p) : FloorCell (create_room g r) p := floorCell_carveList _ h

theorem floorCell_create_corridor {g : MapGenerator} {p : Int × Int} (s e : Int × Int)
    (h : FloorCell g p) : FloorCell (create_corridor g s e) p := floorCell_carveList _ h

theorem getD_mem_of_lt {α : Type} (l : List α) (j : Nat) (d : α) (h : j < l.length) :
    l.getD j d ∈ l := by
  rw [List.getD_eq_getElem _ _ h]
  exact List.getElem_mem h

theorem stepState_eq (g : MapGenerator) (i : Nat) (x y w h : Int) :
    stepState g i x y w h =
      if 0 < i then
        create_corridor
          (create_room { g with rooms := g.rooms ++ [⟨x, y, w, h⟩] } ⟨x, y, w, h⟩)
          ((g.rooms ++ [(⟨x, y, w, h⟩ : Rect)]).getD (i - 1) default).center
          (Rect.center ⟨x, y, w, h⟩)
      else create_room { g with rooms := g.rooms ++ [⟨x, y, w, h⟩] } ⟨x, y, w, h⟩ := by
  simp only [stepState]
  rw [create_room_rooms]

theorem goodState_step {g : MapGenerator} (hgood : GoodState g) (i : Nat)
    (hlen : g.rooms.length = i) {x y w h : Int}
    (hx1 : 1 ≤ x) (hx2 : x ≤ (g.width : Int) - w - 1)
    (hy1 : 1 ≤ y) (hy2 : y ≤ (g.height : Int) - h - 1)
    (hw1 : 0 < w) (hh1 : 0 < h) :
    GoodState (stepState g i x y w h) := by
  obtain ⟨hInv, hrooms, hcent, hconn⟩ := hgood
  have hcw : Int.tdiv w 2 = w / 2 := Int.tdiv_eq_ediv (by omega) (by omega)
  have hch : Int.tdiv h 2 = h / 2 := Int.tdiv_eq_ediv (by omega) (by omega)
  have hb1 : 0 ≤ (Rect.center ⟨x, y, w, h⟩).1 := by
    show 0 ≤ x + Int.tdiv w 2
    rw [hcw]; omega
  have hb2 : (Rect.center ⟨x, y, w, h⟩).1 < (g.width : Int) := by
    show x + Int.tdiv w 2 < (g.width : Int)
    rw [hcw]; omega
  have hb3 : 0 ≤ (Rect.center ⟨x, y, w, h⟩).2 := by
    show 0 ≤ y + Int.tdiv h 2
    rw [hch]; omega
  have hb4 : (Rect.center ⟨x, y, w, h⟩).2 < (g.height : Int) := by
    show y + Int.tdiv h 2 < (g.height : Int)
    rw [hch]; omega
  have hx3 : x + w ≤ (g.width : Int) - 1 := by omega
  have hy3 : y + h ≤ (g.height : Int) - 1 := by omega
  have hRoomOK : RoomOK g.width g.height ⟨x, y, w, h⟩ :=
    ⟨hx1, hy1, hw1, hh1, hx3, hy3⟩
  have hInv1 : GridInv { g with rooms := g.rooms ++ [(⟨x, y, w, h⟩ : Rect)] } := hInv
  have hfc2 : FloorCell
      (create_room { g with rooms := g.rooms ++ [⟨x, y, w, h⟩] } ⟨x, y, w, h⟩)
      (Rect.center ⟨x, y, w, h⟩) :=
    floorCell_of_carve hInv1 (rect_center_mem_roomCells hw1 hh1) hb1 hb2 hb3 hb4
  have hcents2 : ∀ r ∈ g.rooms ++ [(⟨x, y, w, h⟩ : Rect)],
      FloorCell (create_room { g with rooms := g.rooms ++ [⟨x, y, w, h⟩] } ⟨x, y, w, h⟩)
        r.center := by
    intro r hr
    rcases List.mem_append.mp hr with h1 | h1
    · exact floorCell_create_room _ (hcent r h1)
    · rw [List.mem_singleton.mp h1]
      exact hfc2
  rw [stepState_eq]
  by_cases hi : 0 < i
  · rw [if_pos hi]
    have hprev : (g.rooms ++ [(⟨x, y, w, h⟩ : Rect)]).getD (i - 1) default =
        g.rooms.getD (i - 1) default := getD_append_left' _ _ _ _ (by omega)
    rw [hprev]
    have hprevmem : g.rooms.getD (i - 1) default ∈ g.rooms :=
      getD_mem_of_lt _ _ _ (by omega)
    have hPfc : FloorCell g (g.rooms.getD (i - 1) default).center := hcent _ hprevmem
    obtain ⟨hP1, hP2, hP3, hP4, hP5⟩ := hPfc
    have hInv2 : GridInv
        (create_room { g with rooms := g.rooms ++ [⟨x, y, w, h⟩] } ⟨x, y, w, h⟩) :=
      gridInv_create_room hInv1 _
    refine ⟨gridInv_create_corridor hInv2 _ _, ?_, ?_, ?_⟩
    · intro r hr
      rw [create_corridor_rooms, create_room_rooms] at hr
      rw [create_corridor_width, create_corridor_height, create_room_width,
        create_room_height]
      rcases List.mem_append.mp hr with h1 | h1
      · exact hrooms r h1
      · rw [List.mem_singleton.mp h1]
        exact hRoomOK
    · intro r hr
      rw [create_corridor_rooms, create_room_rooms] at hr
      exact floorCell_create_corridor _ _ (hcents2 r hr)
    · intro i' h0 hi'
      rw [create_corridor_rooms, create_room_rooms] at hi' ⊢
      rw [List.length_append, List.length_cons, List.length_nil, hlen] at hi'
      by_cases hlt : i' < i
      · rw [getD_append_left' _ _ _ _ (by omega), getD_append_left' _ _ _ _ (by omega)]
        intro p hp
        exact floorCell_create_corridor _ _
          (floorCell_create_room _ (hconn i' h0 (by omega) p hp))
      · have hieq : i' = i := by omega
        subst hieq
        rw [getD_append_left' _ _ _ _ (by omega)]
        rw [show (g.rooms ++ [(⟨x, y, w, h⟩ : Rect)]).getD i' default = ⟨x, y, w, h⟩ from
          hlen ▸ getD_append_length _ _ _]
        intro p hp
        rcases List.mem_append.mp hp with hp1 | hp1
        · have hco := mem_corridorCells.mp hp1
          have hpb1 : 0 ≤ p.1 ∧ p.1 < (g.width : Int) := by
            rcases hco with ⟨hpe, hpw⟩ | ⟨hpe, hpw⟩
            · have := mem_walkCells.mp hpw
              omega
            · rw [hpe]
              omega
          have hpb2 : 0 ≤ p.2 ∧ p.2 < (g.height : Int) := by
            rcases hco with ⟨hpe, hpw⟩ | ⟨hpe, hpw⟩
            · rw [hpe]
              omega
            · have := mem_walkCells.mp hpw
              omega
          exact floorCell_of_carve hInv2 hp1 hpb1.1
            (by rw [create_room_width]; exact hpb1.2) hpb2.1
            (by rw [create_room_height]; exact hpb2.2)
        · rw [List.mem_singleton.mp hp1]
          exact floorCell_create_corridor _ _ hfc2
  · rw [if_neg hi]
    refine ⟨gridInv_create_room hInv1 _, ?_, ?_, ?_⟩
    · intro r hr
      rw [create_room_rooms] at hr
      rw [create_room_width, create_room_height]
      rcases List.mem_append.mp hr with h1 | h1
      · exact hrooms r h1
      · rw [List.mem_singleton.mp h1]
        exact hRoomOK
    · intro r hr
      rw [create_room_rooms] at hr
      exact hcents2 r hr
    · intro i' h0 hi'
      rw [create_room_rooms, List.length_append, List.length_cons, List.length_nil,
        hlen] at hi'
      omega

theorem genLoop_spec (rng : Nat → Nat) :
    ∀ (n i k : Nat) (g : MapGenerator) (out : MapGenerator × Nat),
      genLoop rng i n k g = .ok out → GoodState g → g.rooms.length = i →
      0 < g.room_min_size →
      GoodState out.1 ∧ out.1.rooms.length = i + n ∧
        out.1.width = g.width ∧ out.1.height = g.height := by
  intro n
  induction n with
  | zero =>
    intro i k g out hmain hgood hlen hmin
    simp only [genLoop] at hmain
    obtain rfl : out = (g, k) := (Except.ok.inj hmain).symm
    exact ⟨hgood, by simp [hlen], rfl, rfl⟩
  | succ n ih =>
    intro i k g out hmain hgood hlen hmin
    cases hw : randint rng k (g.room_min_size : Int) (g.room_max_size : Int) with
    | error e =>
      simp only [genLoop, hw] at hmain
      exact Except.noConfusion hmain
    | ok wk =>
      obtain ⟨w, k1⟩ := wk
      cases hh : randint rng k1 (g.room_min_size : Int) (g.room_max_size : Int) with
      | error e =>
        simp only [genLoop, hw, hh] at hmain
        exact Except.noConfusion hmain
      | ok hk =>
        obtain ⟨h, k2⟩ := hk
        cases hx : randint rng k2 1 ((g.width : Int) - w - 1) with
        | error e =>
          simp only [genLoop, hw, hh, hx] at hmain
          exact Except.noConfusion hmain
        | ok xk =>
          obtain ⟨x, k3⟩ := xk
          cases hy : randint rng k3 1 ((g.height : Int) - h - 1) with
          | error e =>
            simp only [genLoop, hw, hh, hx, hy] at hmain
            exact Except.noConfusion hmain
          | ok yk =>
            obtain ⟨y, k4⟩ := yk
            simp only [genLoop, hw, hh, hx, hy] at hmain
            obtain ⟨hw1, hw2, -⟩ := randint_ok hw
            obtain ⟨hh1, hh2, -⟩ := randint_ok hh
            obtain ⟨hx1, hx2, -⟩ := randint_ok hx
            obtain ⟨hy1, hy2, -⟩ := randint_ok hy
            have hwpos : (0 : Int) < w := by
              have : (0 : Int) < (g.room_min_size : Int) := by exact_mod_cast hmin
              omega
            have hhpos : (0 : Int) < h := by
              have : (0 : Int) < (g.room_min_size : Int) := by exact_mod_cast hmin
              omega
            have hgood' : GoodState (stepState g i x y w h) :=
              goodState_step ⟨hgood.1, hgood.2.1, hgood.2.2.1, hgood.2.2.2⟩ i hlen
                hx1 hx2 hy1 hy2 hwpos hhpos
            obtain ⟨hsw, hsh, hsr, hsc, hsm, hsM⟩ := stepState_fields g i x y w h
            have hlen' : (stepState g i x y w h).rooms.length = i + 1 := by
              rw [hsr, List.length_append, List.length_cons, List.length_nil, hlen]
            have hmin' : 0 < (stepState g i x y w h).room_min_size := by
              rw [hsm]; exact hmin
            obtain ⟨o1, o2, o3, o4⟩ := ih (i + 1) k4 _ out hmain hgood' hlen' hmin'
            exact ⟨o1, by omega, by rw [o3, hsw], by rw [o4, hsh]⟩

theorem genLoop_error_inv (rng : Nat → Nat) :
    ∀ (n i k : Nat) (g g' : MapGenerator), genLoop rng i n k g = .error g' →
      GridInv g → GridInv g' ∧ g'.width = g.width ∧ g'.height = g.height := by
  intro n
  induction n with
  | zero =>
    intro i k g g' hmain hInv
    simp only [genLoop] at hmain
    exact Except.noConfusion hmain
  | succ n ih =>
    intro i k g g' hmain hInv
    cases hw : randint rng k (g.room_min_size : Int) (g.room_max_size : Int) with
    | error e =>
      simp only [genLoop, hw] at hmain
      obtain rfl : g' = g := (Except.error.inj hmain).symm
      exact ⟨hInv, rfl, rfl⟩
    | ok wk =>
      obtain ⟨w, k1⟩ := wk
      cases hh : randint rng k1 (g.room_min_size : Int) (g.room_max_size : Int) with
      | error e =>
        simp only [genLoop, hw, hh] at hmain
        obtain rfl : g' = g := (Except.error.inj hmain).symm
        exact ⟨hInv, rfl, rfl⟩
      | ok hk =>
        obtain ⟨h, k2⟩ := hk
        cases hx : randint rng k2 1 ((g.width : Int) - w - 1) with
        | error e =>
          simp only [genLoop, hw, hh, hx] at hmain
          obtain rfl : g' = g := (Except.error.inj hmain).symm
          exact ⟨hInv, rfl, rfl⟩
        | ok xk =>
          obtain ⟨x, k3⟩ := xk
          cases hy : randint rng k3 1 ((g.height : Int) - h - 1) with
          | error e =>
            simp only [genLoop, hw, hh, hx, hy] at hmain
            obtain rfl : g' = g := (Except.error.inj hmain).symm
            exact ⟨hInv, rfl, rfl⟩
          | ok yk =>
            obtain ⟨y, k4⟩ := yk
            simp only [genLoop, hw, hh, hx, hy] at hmain
            have hInv' : GridInv (stepState g i x y w h) := gridInv_stepState hInv i x y w h
            obtain ⟨a1, a2, a3⟩ := ih (i + 1) k4 _ g' hmain hInv'
            obtain ⟨hsw, hsh, -, -, -, -⟩ := stepState_fields g i x y w h
            exact ⟨a1, by rw [a2, hsw], by rw [a3, hsh]⟩

theorem goodState_resetState {g : MapGenerator} (hInv : GridInv g) :
    GoodState (resetState g) := by
  refine ⟨gridInv_resetState hInv, ?_, ?_, ?_⟩
  · intro r hr
    exact absurd hr (List.not_mem_nil r)
  · intro r hr
    exact absurd hr (List.not_mem_nil r)
  · intro i h0 hi
    have : (resetState g).rooms = [] := rfl
    rw [this] at hi
    simp at hi

theorem generate_ok_good {g g' : MapGenerator} {rng : Nat → Nat}
    (hInv : GridInv g) (hmin : 0 < g.room_min_size)
    (hok : generate rng g = .ok g') :
    GoodState g' ∧ g'.rooms.length = g.room_count ∧
      g'.width = g.width ∧ g'.height = g.height := by
  unfold generate at hok
  cases hmain : genLoop rng 0 g.room_count 0 (resetState g) with
  | error ge =>
    rw [hmain] at hok
    exact Except.noConfusion hok
  | ok outk =>
    obtain ⟨go, ko⟩ := outk
    simp only [hmain] at hok
    obtain rfl : g' = go := (Except.ok.inj hok).symm
    have := genLoop_spec rng g.room_count 0 0 (resetState g) (g', ko) hmain
      (goodState_resetState hInv) rfl hmin
    obtain ⟨t1, t2, t3, t4⟩ := this
    simp only at t2
    exact ⟨t1, by omega, t3, t4⟩

theorem getD_append_right' {α : Type} (l l' : List α) (k : Nat) (d : α) :
    (l ++ l').getD (l.length + k) d = l'.getD k d := by
  induction l with
  | nil => simp
  | cons a as ih => simpa [Nat.succ_add] using ih

theorem flatMap_range_getD {β : Type} (m : Nat) (d : β) :
    ∀ (r n c : Nat) (f : Nat → List β), (∀ i, (f i).length = m) → r < n → c < m →
      ((List.range n).flatMap f).getD (r * m + c) d = (f r).getD c d := by
  intro r
  induction r with
  | zero =>
    intro n c f hf hr hc
    obtain ⟨n', rfl⟩ : ∃ n', n = n' + 1 := ⟨n - 1, by omega⟩
    rw [List.range_succ_eq_map, List.flatMap_cons, Nat.zero_mul, Nat.zero_add,
      getD_append_left' _ _ _ _ (by rw [hf 0]; exact hc)]
  | succ r ih =>
    intro n c f hf hr hc
    obtain ⟨n', rfl⟩ : ∃ n', n = n' + 1 := ⟨n - 1, by omega⟩
    rw [List.range_succ_eq_map, List.flatMap_cons,
      show (r + 1) * m + c = (f 0).length + (r * m + c) by rw [hf 0]; ring,
      getD_append_right', List.flatMap_map]
    exact ih n' c (fun i => f (i + 1)) (fun i => hf (i + 1)) (by omega) hc

theorem genLoop_ok_inv (rng : Nat → Nat) :
    ∀ (n i k : Nat) (g : MapGenerator) (out : MapGenerator × Nat),
      genLoop rng i n k g = .ok out →
      GridInv g → GridInv out.1 ∧ out.1.width = g.width ∧ out.1.height = g.height := by
  intro n
  induction n with
  | zero =>
    intro i k g out hmain hInv
    simp only [genLoop] at hmain
    obtain rfl : out = (g, k) := (Except.ok.inj hmain).symm
    exact ⟨hInv, rfl, rfl⟩
  | succ n ih =>
    intro i k g out hmain hInv
    cases hw : randint rng k (g.room_min_size : Int) (g.room_max_size : Int) with
    | error e =>
      simp only [genLoop, hw] at hmain
      exact Except.noConfusion hmain
    | ok wk =>
      obtain ⟨w, k1⟩ := wk
      cases hh : randint rng k1 (g.room_min_size : Int) (g.room_max_size : Int) with
      | error e =>
        simp only [genLoop, hw, hh] at hmain
        exact Except.noConfusion hmain
      | ok hk =>
        obtain ⟨h, k2⟩ := hk
        cases hx : randint rng k2 1 ((g.width : Int) - w - 1) with
        | error e =>
          simp only [genLoop, hw, hh, hx] at hmain
          exact Except.noConfusion hmain
        | ok xk =>
          obtain ⟨x, k3⟩ := xk
          cases hy : randint rng k3 1 ((g.height : Int) - h - 1) with
          | error e =>
            simp only [genLoop, hw, hh, hx, hy] at hmain
            exact Except.noConfusion hmain
          | ok yk =>
            obtain ⟨y, k4⟩ := yk
            simp only [genLoop, hw, hh, hx, hy] at hmain
            have hInv' : GridInv (stepState g i x y w h) := gridInv_stepState hInv i x y w h
            obtain ⟨a1, a2, a3⟩ := ih (i + 1) k4 _ out hmain hInv'
            obtain ⟨hsw, hsh, -, -, -, -⟩ := stepState_fields g i x y w h
            exact ⟨a1, by rw [a2, hsw], by rw [a3, hsh]⟩

/-! ## Claim theorems -/

/-- C6: for every coordinate pair outside `[0, width) × [0, height)`,
`get_tile_at` returns Wall (`0`) and `is_walkable` returns `false`, without
throwing; and for every pair, `is_walkable` is `true` iff `get_tile_at`
returns Floor (`1`). -/
theorem get_tile_at_oob_spec (g : MapGenerator) (x y : Int) :
    ((x < 0 ∨ (g.width : Int) ≤ x ∨ y < 0 ∨ (g.height : Int) ≤ y) →
      get_tile_at g x y = 0 ∧ is_walkable g x y = false) ∧
    (is_walkable g x y = true ↔ get_tile_at g x y = 1) := by
  constructor
  · intro hoob
    have hneg : ¬(0 ≤ x ∧ x < (g.width : Int) ∧ 0 ≤ y ∧ y < (g.height : Int)) := by omega
    unfold is_walkable get_tile_at
    rw [if_neg hneg]
    exact ⟨rfl, rfl⟩
  · unfold is_walkable
    exact beq_iff_eq

/-- C6 witness: a concrete out-of-bounds query on a concrete state. -/
theorem get_tile_at_oob_witness :
    get_tile_at demoMap (-1) 3 = 0 ∧ is_walkable demoMap (-1) 3 = false :=
  (get_tile_at_oob_spec demoMap (-1) 3).1 (by decide)

/-- C1: after a successful `generate`, for every adjacent pair of rooms
`(i - 1, i)`, every cell of the deterministic horizontal-then-vertical
L-walk between their centers (centers by integer division) reads Floor from
the final grid. -/
theorem generate_corridor_connectivity (g g' : MapGenerator) (rng : Nat → Nat)
    (hInv : GridInv g) (hmin : 0 < g.room_min_size)
    (hok : generate rng g = .ok g') (i : Nat) (h0 : 0 < i)
    (hi : i < g'.rooms.length) :
    ∀ p ∈ pathCells ((g'.rooms.getD (i - 1) default).center)
        ((g'.rooms.getD i default).center),
      get_tile_at g' p.1 p.2 = 1 := by
  obtain ⟨⟨hInv', -, -, hconn⟩, -, -, -⟩ := generate_ok_good hInv hmin hok
  intro p hp
  obtain ⟨b1, b2, b3, b4, b5⟩ := hconn i h0 hi p hp
  unfold get_tile_at
  rw [if_pos ⟨b1, b2, b3, b4⟩]
  exact b5

/-- C3: every successful `generate` under the default configuration leaves
exactly `room_count = 5` rooms, each placed with a one-cell border:
`1 ≤ x`, `1 ≤ y`, `x + w ≤ width - 1`, `y + h ≤ height - 1`. -/
theorem generate_rooms_spec (g g' : MapGenerator) (rng : Nat → Nat)
    (hInv : GridInv g) (hcount : g.room_count = 5) (hmin : g.room_min_size = 6)
    (hmax : g.room_max_size = 15)
    (hok : generate rng g = .ok g') :
    g'.rooms.length = 5 ∧
      ∀ r ∈ g'.rooms, 1 ≤ r.x ∧ 1 ≤ r.y ∧
        r.x + r.w ≤ (g'.width : Int) - 1 ∧ r.y + r.h ≤ (g'.height : Int) - 1 := by
  obtain ⟨⟨-, hrooms, -, -⟩, hlen, -, -⟩ := generate_ok_good hInv (by omega) hok
  refine ⟨by omega, ?_⟩
  intro r hr
  obtain ⟨a1, a2, -, -, a5, a6⟩ := hrooms r hr
  exact ⟨a1, a2, a5, a6⟩

/-- C4: `create_corridor` carves exactly the L-shape: the horizontal walk
`start.x → end.x` (exclusive, step `±1`) at row `start.y`, then the vertical
walk `start.y → end.y` (exclusive) at column `end.x`; in-bounds visited
cells become Floor, every other in-bounds cell is untouched, out-of-bounds
cells are silently skipped (grid shape, dimensions and room list are
unchanged). -/
theorem create_corridor_spec (g : MapGenerator) (hInv : GridInv g) (s e : Int × Int) :
    (∀ z : Int, z ∈ walkCells s.1 e.1 ↔ (s.1 ≤ z ∧ z < e.1) ∨ (e.1 < z ∧ z ≤ s.1)) ∧
    (∀ z : Int, z ∈ walkCells s.2 e.2 ↔ (s.2 ≤ z ∧ z < e.2) ∨ (e.2 < z ∧ z ≤ s.2)) ∧
    (create_corridor g s e).rooms = g.rooms ∧
    (create_corridor g s e).width = g.width ∧
    (create_corridor g s e).height = g.height ∧
    (∀ a b : Nat, a < g.width → b < g.height →
      cellN (create_corridor g s e) a b =
        if ((a : Int) ∈ walkCells s.1 e.1 ∧ (b : Int) = s.2) ∨
            ((a : Int) = e.1 ∧ (b : Int) ∈ walkCells s.2 e.2) then 1
        else cellN g a b) := by
  refine ⟨fun z => mem_walkCells, fun z => mem_walkCells,
    create_corridor_rooms g s e, create_corridor_width g s e,
    create_corridor_height g s e, ?_⟩
  intro a b ha hb
  show cellN (carveList g (corridorCells s e)) a b = _
  rw [cellN_carveList hInv (corridorCells s e) a b ha hb]
  have hiff : (((a : Int), (b : Int)) ∈ corridorCells s e) ↔
      (((a : Int) ∈ walkCells s.1 e.1 ∧ (b : Int) = s.2) ∨
        ((a : Int) = e.1 ∧ (b : Int) ∈ walkCells s.2 e.2)) := by
    rw [mem_corridorCells]
    tauto
  rw [if_congr hiff rfl rfl]

/-- C4 witness: a concrete corridor cell becomes Floor on a concrete state. -/
theorem create_corridor_spec_witness :
    cellN (create_corridor demoMap ((2 : Int), (2 : Int)) ((5 : Int), (5 : Int))) 3 2 = 1 := by
  have h := (create_corridor_spec demoMap (by decide)
    ((2 : Int), (2 : Int)) ((5 : Int), (5 : Int))).2.2.2.2.2 3 2 (by decide) (by decide)
  rw [h]
  decide

set_option maxRecDepth 100000 in
set_option maxHeartbeats 2000000 in
/-- C1 witness: a concrete successful run (9×9 grid, constant random
stream) on which the walk between the centers of rooms 0 and 1 reads
Floor. -/
theorem generate_corridor_connectivity_witness :
    get_tile_at demoGen 4 4 = 1 :=
  generate_corridor_connectivity demoMap demoGen demoRng (by decide) (by decide)
    (by decide) 1 (by decide) (by decide) ((4 : Int), (4 : Int)) (by decide)

set_option maxRecDepth 100000 in
set_option maxHeartbeats 2000000 in
/-- C3 witness: the same concrete run yields exactly 5 rooms. -/
theorem generate_rooms_spec_witness : demoGen.rooms.length = 5 :=
  (generate_rooms_spec demoMap demoGen demoRng (by decide) rfl rfl rfl (by decide)).1

/-- C10: the grid representation invariant (a `width`-length list of
`height`-length columns, every cell `0` or `1`) holds after construction
and is preserved, with the dimensions, by `create_room`, `create_corridor`,
`set_tiles` and `generate` (on success and on failure; the query methods
`get_tile_at`, `is_walkable` and `draw` do not write the state at all in
this embedding). -/
theorem grid_representation_invariant :
    (∀ (w h t : Nat) (ts : TileSelector) (a b c d : Int),
      GridInv (MapGenerator.init w h t ts a b c d)) ∧
    (∀ (g : MapGenerator) (r : Rect), GridInv g →
      GridInv (create_room g r) ∧ (create_room g r).width = g.width ∧
        (create_room g r).height = g.height) ∧
    (∀ (g : MapGenerator) (s e : Int × Int), GridInv g →
      GridInv (create_corridor g s e) ∧ (create_corridor g s e).width = g.width ∧
        (create_corridor g s e).height = g.height) ∧
    (∀ (g : MapGenerator) (a b c d : Int), GridInv g →
      GridInv (set_tiles g a b c d) ∧ (set_tiles g a b c d).width = g.width ∧
        (set_tiles g a b c d).height = g.height) ∧
    (∀ (g g' : MapGenerator) (rng : Nat → Nat), GridInv g →
      generate rng g = .ok g' ∨ generate rng g = .error g' →
      GridInv g' ∧ g'.width = g.width ∧ g'.height = g.height) := by
  refine ⟨?_, ?_, ?_, ?_, ?_⟩
  · intro w h t ts a b c d
    constructor
    · simp [MapGenerator.init]
    · intro col hcol
      rw [List.eq_of_mem_replicate hcol]
      constructor
      · simp [MapGenerator.init]
      · intro v hv
        rw [List.eq_of_mem_replicate hv]
        exact .inl rfl
  · intro g r hInv
    exact ⟨gridInv_create_room hInv r, create_room_width g r, create_room_height g r⟩
  · intro g s e hInv
    exact ⟨gridInv_create_corridor hInv s e, create_corridor_width g s e,
      create_corridor_height g s e⟩
  · intro g a b c d hInv
    exact ⟨hInv, rfl, rfl⟩
  · intro g g' rng hInv hcase
    rcases hcase with hok | herr
    · unfold generate at hok
      cases hmain : genLoop rng 0 g.room_count 0 (resetState g) with
      | error ge =>
        rw [hmain] at hok
        exact Except.noConfusion hok
      | ok outk =>
        obtain ⟨go, ko⟩ := outk
        simp only [hmain] at hok
        obtain rfl : g' = go := (Except.ok.inj hok).symm
        exact genLoop_ok_inv rng g.room_count 0 0 (resetState g) (g', ko) hmain
          (gridInv_resetState hInv)
    · unfold generate at herr
      cases hmain : genLoop rng 0 g.room_count 0 (resetState g) with
      | error ge =>
        simp only [hmain] at herr
        obtain rfl : g' = ge := (Except.error.inj herr).symm
        exact genLoop_error_inv rng g.room_count 0 0 (resetState g) g' hmain
          (gridInv_resetState hInv)
      | ok outk =>
        obtain ⟨go, ko⟩ := outk
        simp only [hmain] at herr
        exact Except.noConfusion herr

/-- C10 witness: the invariant holds concretely after a concrete carve. -/
theorem grid_representation_invariant_witness :
    GridInv (create_room demoMap ⟨2, 2, 3, 3⟩) :=
  (grid_representation_invariant.2.1 demoMap ⟨2, 2, 3, 3⟩ (by decide)).1

/-- C2 (amended): `generate` clears the room list and resets the whole grid
to Wall before drawing any room; when the first drawn room width empties
the x-placement range, the `ValueError` from `random.randint` propagates
with the already-mutated state (rooms cleared, grid reset), not with the
original state — there is no precondition check before mutation. -/
theorem generate_fail_after_mutation (g : MapGenerator) (rng : Nat → Nat)
    (hInv : GridInv g) (hcount : 0 < g.room_count)
    (hsz : (g.room_min_size : Int) ≤ (g.room_max_size : Int))
    (hbad : (g.width : Int) -
      ((g.room_min_size : Int) +
        ((rng 0 % ((g.room_max_size : Int) - (g.room_min_size : Int) + 1).toNat : Nat) : Int)) -
        1 < 1) :
    generate rng g = .error (resetState g) ∧ (resetState g).rooms = [] ∧
      (∀ a b : Nat, a < g.width → b < g.height → cellN (resetState g) a b = 0) := by
  refine ⟨?_, rfl, fun a b ha hb => cellN_resetState hInv a b ha hb⟩
  unfold generate
  obtain ⟨n, hn⟩ : ∃ n, g.room_count = n + 1 := ⟨g.room_count - 1, by omega⟩
  rw [hn]
  have e1 : randint rng 0 ((resetState g).room_min_size : Int)
      ((resetState g).room_max_size : Int) =
      .ok ((g.room_min_size : Int) +
        ((rng 0 % ((g.room_max_size : Int) - (g.room_min_size : Int) + 1).toNat : Nat) : Int),
        1) := by
    obtain ⟨-, -, -, hfm, hfM, -⟩ := resetState_fields g
    unfold randint
    rw [hfm, hfM,
      if_neg (show ¬(((g.room_max_size : Nat) : Int) < ((g.room_min_size : Nat) : Int))
        by omega)]
  have e2 : randint rng 1 ((resetState g).room_min_size : Int)
      ((resetState g).room_max_size : Int) =
      .ok ((g.room_min_size : Int) +
        ((rng 1 % ((g.room_max_size : Int) - (g.room_min_size : Int) + 1).toNat : Nat) : Int),
        2) := by
    obtain ⟨-, -, -, hfm, hfM, -⟩ := resetState_fields g
    unfold randint
    rw [hfm, hfM,
      if_neg (show ¬(((g.room_max_size : Nat) : Int) < ((g.room_min_size : Nat) : Int))
        by omega)]
  have e3 : randint rng 2 1 (((resetState g).width : Int) -
      ((g.room_min_size : Int) +
        ((rng 0 % ((g.room_max_size : Int) - (g.room_min_size : Int) + 1).toNat : Nat) : Int)) -
        1) = .error () := by
    obtain ⟨hfw, -, -, -, -, -⟩ := resetState_fields g
    unfold randint
    rw [hfw, if_pos hbad]
  simp only [genLoop, e1, e2, e3]

/-- C2 witness: the amended behavior on a concrete 10×10 state whose first
drawn room width is 15. -/
theorem generate_fail_after_mutation_witness :
    generate badRng badMap = .error (resetState badMap) :=
  (generate_fail_after_mutation badMap badRng (by decide) (by decide) (by decide)
    (by decide)).1

/-- C2 counterexample: on `badMap` the failing `generate` has already
cleared the non-empty room list and reset the grid, so the state is not
left unchanged and no precondition was checked before mutation. -/
theorem generate_precheck_counterexample :
    (generate badRng badMap).isOk = false ∧
      generate badRng badMap = .error (resetState badMap) ∧
      (resetState badMap).rooms = [] ∧ badMap.rooms = [⟨1, 1, 3, 3⟩] ∧
      (resetState badMap).rooms ≠ badMap.rooms := by
  refine ⟨by decide, by decide, rfl, rfl, by decide⟩

/-- C7: `get_tile` returns `none` exactly when the tileset index is outside
`[0, sheetCount)` or the tile index is outside `[0, tileCount(sheet))`, and
returns an image for every in-range pair; it is a total function (never
throws) for all integer arguments. -/
theorem get_tile_none_iff (ts : TileSelector) (i j : Int) :
    (ts.get_tile i j = none ↔
      ¬(0 ≤ i ∧ i < (ts.get_tileset_count : Int) ∧ 0 ≤ j ∧
        j < (ts.get_tile_count i : Int))) ∧
    ((ts.get_tile i j).isSome = true ↔
      (0 ≤ i ∧ i < (ts.get_tileset_count : Int) ∧ 0 ≤ j ∧
        j < (ts.get_tile_count i : Int))) := by
  have hP : (0 ≤ i ∧ i < (ts.get_tileset_count : Int) ∧ 0 ≤ j ∧
      j < (ts.get_tile_count i : Int)) ↔
      ((0 ≤ i ∧ i < (ts.tileset_images.length : Int)) ∧
        (0 ≤ j ∧ j < ((ts.tileset_images.getD i.toNat []).length : Int))) := by
    unfold TileSelector.get_tileset_count TileSelector.get_tile_count
    by_cases h1 : 0 ≤ i ∧ i < (ts.tileset_images.length : Int)
    · rw [if_pos h1]
      tauto
    · rw [if_neg h1]
      constructor
      · rintro ⟨a, b, c, d⟩
        exact absurd ⟨a, b⟩ h1
      · rintro ⟨hh, -⟩
        exact absurd hh h1
  simp only [TileSelector.get_tile]
  by_cases h1 : 0 ≤ i ∧ i < (ts.tileset_images.length : Int)
  · rw [if_pos h1]
    by_cases h2 : 0 ≤ j ∧ j < ((ts.tileset_images.getD i.toNat []).length : Int)
    · rw [if_pos h2]
      constructor
      · constructor
        · intro hc
          exact Option.noConfusion hc
        · intro hc
          exact absurd (hP.mpr ⟨h1, h2⟩) hc
      · constructor
        · intro _
          exact hP.mpr ⟨h1, h2⟩
        · intro _
          rfl
    · rw [if_neg h2]
      constructor
      · constructor
        · intro _ hp
          exact h2 (hP.mp hp).2
        · intro _
          rfl
      · constructor
        · intro hc
          simp at hc
        · intro hp
          exact absurd (hP.mp hp).2 h2
  · rw [if_neg h1]
    constructor
    · constructor
      · intro _ hp
        exact h1 (hP.mp hp).1
      · intro _
        rfl
    · constructor
      · intro hc
        simp at hc
      · intro hp
        exact absurd (hP.mp hp).1 h1

theorem length_flatMap_const {α β : Type} (l : List α) (f : α → List β) (m : Nat)
    (hf : ∀ a ∈ l, (f a).length = m) : (l.flatMap f).length = l.length * m := by
  induction l with
  | nil => simp
  | cons a l ih =>
    rw [List.flatMap_cons, List.length_append, hf a (List.mem_cons_self a l),
      ih (fun b hb => hf b (List.mem_cons_of_mem a hb)), List.length_cons]
    ring

/-- C8: a decoded `W × H` image with tile size `T` is sliced into exactly
`(W / T) * (H / T)` tiles (integer division) in row-major order
(`index = row * sheetCols + col` holds the tile cut at
`(col * T, row * T)`); in particular one 480×48 image at `T = 48` yields
one sheet of 10 tiles. -/
theorem tile_slicing_spec :
    (∀ W H T : Nat, (sliceTiles W H T).length = (W / T) * (H / T)) ∧
    (∀ W H T r c : Nat, r < H / T → c < W / T →
      (sliceTiles W H T).getD (r * (W / T) + c) ((0 : Nat), (0 : Nat)) = (c * T, r * T)) ∧
    ((TileSelector.init [.image "tileset1.png" 480 48] 48).toOption.map
      (fun ts => (ts.get_tileset_count, ts.get_tile_count 0))) = some (1, 10) := by
  refine ⟨?_, ?_, by decide⟩
  · intro W H T
    unfold sliceTiles
    rw [length_flatMap_const _ _ (W / T)
      (fun a _ => by rw [List.length_map, List.length_range]), List.length_range,
      Nat.mul_comm]
  · intro W H T r c hr hc
    unfold sliceTiles
    rw [flatMap_range_getD (W / T) ((0 : Nat), (0 : Nat)) r (H / T) c _
      (fun i => by rw [List.length_map, List.length_range]) hr hc]
    rw [List.getD_eq_getElem _ _ (by simpa using hc)]
    simp

/-- C8 witness: the row-major index law at a concrete slice. -/
theorem tile_slicing_spec_witness :
    (sliceTiles 480 48 48).getD (0 * (480 / 48) + 9) ((0 : Nat), (0 : Nat)) =
      (9 * 48, 0 * 48) :=
  tile_slicing_spec.2.1 480 48 48 0 9 (by decide) (by decide)

/-- C9: a source path that cannot be located is skipped and loading
continues identically to the list without it, while a located source that
cannot be decoded makes construction fail with the fatal error, whatever
comes after it. -/
theorem tileset_load_errors :
    (∀ (T : Nat) (p : String) (pre rest : List Source),
      loadSheets T (pre ++ .missing p :: rest) = loadSheets T (pre ++ rest)) ∧
    (∀ (T : Nat) (p : String) (pre rest : List Source),
      (∀ s ∈ pre, s.isUndecodable = false) →
      loadSheets T (pre ++ .undecodable p :: rest) = .error p) := by
  constructor
  · intro T p pre rest
    induction pre with
    | nil => rfl
    | cons s pre ih =>
      cases s with
      | missing q =>
        simp only [List.cons_append, loadSheets]
        exact ih
      | undecodable q => rfl
      | image q w h =>
        simp only [List.cons_append, loadSheets, List.append_eq]
        rw [ih]
  · intro T p pre rest hpre
    induction pre with
    | nil => rfl
    | cons s pre ih =>
      cases s with
      | missing q =>
        simp only [List.cons_append, loadSheets]
        exact ih (fun s hs => hpre s (List.mem_cons_of_mem _ hs))
      | undecodable q =>
        exact absurd (hpre _ (List.mem_cons_self _ _)) (by simp [Source.isUndecodable])
      | image q w h =>
        simp only [List.cons_append, loadSheets, List.append_eq]
        rw [ih (fun s hs => hpre s (List.mem_cons_of_mem _ hs))]
        rfl

/-- C9 witness: with one good sheet before it, an undecodable source aborts
construction with the fatal error. -/
theorem tileset_load_errors_witness :
    loadSheets 48 ([.image "tileset1.png" 480 48] ++ .undecodable "tileset2.png" :: []) =
      .error "tileset2.png" :=
  tileset_load_errors.2 48 "tileset2.png" [.image "tileset1.png" 480 48] [] (by decide)

theorem screen_inj {ts : Int} (hne : ts ≠ 0) {x x' c : Int}
    (h : x * ts - c = x' * ts - c) : x = x' := by
  have h2 : x * ts = x' * ts := by omega
  exact mul_right_cancel₀ hne h2

theorem floorDrawCall_inj {g : MapGenerator} (hts : 0 < g.tile_size) (cx cy : Int)
    {x y x' y' : Int}
    (h : floorDrawCall g cx cy x y = floorDrawCall g cx cy x' y') :
    x = x' ∧ y = y' := by
  have hne : ((g.tile_size : Nat) : Int) ≠ 0 := by omega
  cases hopt : g.tile_selector.get_tile g.floor_tileset g.floor_tile with
  | some t =>
    simp only [floorDrawCall, hopt] at h
    injection h with h1 h2
    exact ⟨screen_inj hne (congrArg Prod.fst h2), screen_inj hne (congrArg Prod.snd h2)⟩
  | none =>
    simp only [floorDrawCall, hopt] at h
    injection h with h1 h2
    exact ⟨screen_inj hne (congrArg Prod.fst h2),
      screen_inj hne (congrArg Prod.fst (congrArg Prod.snd h2))⟩

theorem wallDrawCall_inj {g : MapGenerator} (hts : 0 < g.tile_size) (cx cy : Int)
    {x y x' y' : Int}
    (h : wallDrawCall g cx cy x y = wallDrawCall g cx cy x' y') :
    x = x' ∧ y = y' := by
  have hne : ((g.tile_size : Nat) : Int) ≠ 0 := by omega
  cases hopt : g.tile_selector.get_tile g.wall_tileset g.wall_tile with
  | some t =>
    simp only [wallDrawCall, hopt] at h
    injection h with h1 h2
    exact ⟨screen_inj hne (congrArg Prod.fst h2), screen_inj hne (congrArg Prod.snd h2)⟩
  | none =>
    simp only [wallDrawCall, hopt] at h
    injection h with h1 h2
    exact ⟨screen_inj hne (congrArg Prod.fst h2),
      screen_inj hne (congrArg Prod.fst (congrArg Prod.snd h2))⟩

theorem mem_drawFloorPass {g : MapGenerator} (hts : 0 < g.tile_size) (cx cy : Int)
    (sw sh : Nat) (x y : Int) :
    floorDrawCall g cx cy x y ∈ drawFloorPass g cx cy sw sh ↔
      x ∈ drawWindowXs g cx sw ∧ y ∈ drawWindowYs g cy sh ∧
        cellN g x.toNat y.toNat = 1 := by
  unfold drawFloorPass
  rw [List.mem_flatMap]
  constructor
  · rintro ⟨x', hx', hmem⟩
    rw [List.mem_filterMap] at hmem
    obtain ⟨y', hy', heq⟩ := hmem
    by_cases hcell : cellN g x'.toNat y'.toNat = 1
    · rw [if_pos hcell] at heq
      obtain ⟨rfl, rfl⟩ := floorDrawCall_inj hts cx cy (Option.some.inj heq)
      exact ⟨hx', hy', hcell⟩
    · rw [if_neg hcell] at heq
      exact Option.noConfusion heq
  · rintro ⟨hx, hy, hcell⟩
    refine ⟨x, hx, ?_⟩
    rw [List.mem_filterMap]
    exact ⟨y, hy, by rw [if_pos hcell]⟩

theorem mem_drawWallPass {g : MapGenerator} (hts : 0 < g.tile_size) (cx cy : Int)
    (sw sh : Nat) (x y : Int) :
    wallDrawCall g cx cy x y ∈ drawWallPass g cx cy sw sh ↔
      x ∈ drawWindowXs g cx sw ∧ y ∈ drawWindowYs g cy sh ∧
        cellN g x.toNat y.toNat = 0 ∧ y < (g.height : Int) - 1 ∧
        cellN g x.toNat (y + 1).toNat = 1 := by
  unfold drawWallPass
  rw [List.mem_flatMap]
  constructor
  · rintro ⟨x', hx', hmem⟩
    rw [List.mem_filterMap] at hmem
    obtain ⟨y', hy', heq⟩ := hmem
    by_cases hcond : cellN g x'.toNat y'.toNat = 0 ∧ y' < (g.height : Int) - 1 ∧
        cellN g x'.toNat (y' + 1).toNat = 1
    · rw [if_pos hcond] at heq
      obtain ⟨rfl, rfl⟩ := wallDrawCall_inj hts cx cy (Option.some.inj heq)
      exact ⟨hx', hy', hcond⟩
    · rw [if_neg hcond] at heq
      exact Option.noConfusion heq
  · rintro ⟨hx, hy, hcond⟩
    refine ⟨x, hx, ?_⟩
    rw [List.mem_filterMap]
    exact ⟨y, hy, by rw [if_pos hcond]⟩

/-- C5: `draw` emits all pass-1 (floor) surface calls strictly before all
pass-2 (wall) calls; a floor call is emitted exactly for the Floor cells of
the visible window (blit when the floor tile resolves, light-gray fallback
rectangle otherwise — both packaged in `floorDrawCall`), and a wall call is
emitted for a cell exactly when the cell is Wall (`0`), the cell directly
below is in grid bounds (`y < height - 1`), and that cell below is Floor. -/
theorem draw_two_pass_spec (g : MapGenerator) (hts : 0 < g.tile_size)
    (cx cy : Int) (sw sh : Nat) :
    draw g cx cy sw sh = drawFloorPass g cx cy sw sh ++ drawWallPass g cx cy sw sh ∧
    (∀ x y : Int,
      floorDrawCall g cx cy x y ∈ drawFloorPass g cx cy sw sh ↔
        x ∈ drawWindowXs g cx sw ∧ y ∈ drawWindowYs g cy sh ∧
          cellN g x.toNat y.toNat = 1) ∧
    (∀ x y : Int,
      wallDrawCall g cx cy x y ∈ drawWallPass g cx cy sw sh ↔
        x ∈ drawWindowXs g cx sw ∧ y ∈ drawWindowYs g cy sh ∧
          cellN g x.toNat y.toNat = 0 ∧ y < (g.height : Int) - 1 ∧
          cellN g x.toNat (y + 1).toNat = 1) :=
  ⟨rfl, fun x y => mem_drawFloorPass hts cx cy sw sh x y,
    fun x y => mem_drawWallPass hts cx cy sw sh x y⟩

/-- C5 witness: the two-pass decomposition on a concrete state and camera. -/
theorem draw_two_pass_witness :
    draw demoMap 0 0 100 100 =
      drawFloorPass demoMap 0 0 100 100 ++ drawWallPass demoMap 0 0 100 100 :=
  (draw_two_pass_spec demoMap (by decide) 0 0 100 100).1

end MapEngine
